import Mathlib

/-!
# Meeseeks: request validation and descriptor compilation

A shallow embedding of `validation.go` and of the descriptor / patch builders of
`argocd.go`, followed by theorems about them.

Modelling conventions
* A Go `string` is a Lean `String` (a sequence of Unicode scalar values, i.e. a Go string
  holding valid UTF-8).  Go's `len(s)` is the byte length of the UTF-8 encoding,
  `String.utf8ByteSize`.
* A Go `error` is `Except String Unit`: `.ok ()` is `nil`, `.error msg` is an error whose
  `Error()` text is `msg`.  `fmt.Errorf("p: %w", err)` prepends `"p: "` to the text.
* Go `int` is `Int` (no arithmetic is performed on it, only comparisons and `%d`).
* A Go `map[string]string` is an association list in the order in which `range` visits it.
* `regexp.MustCompile(p).MatchString(s)` for a pattern `^…$` is a whole-string match of the
  pattern body; the three patterns of `validation.go` are transcribed as `Regex` values and
  matched with Brzozowski derivatives.
-/

namespace Meeseeks

/-! ## Regular expressions (the fragment used by `validation.go`) -/

/-- Regular expressions over characters; `cls` is a bracket class given by inclusive ranges. -/
inductive Regex where
  | none : Regex
  | eps : Regex
  | cls (ranges : List (Char × Char)) : Regex
  | cat (a b : Regex) : Regex
  | alt (a b : Regex) : Regex
  | star (a : Regex) : Regex
  deriving Repr, DecidableEq

namespace Regex

/-- Membership of a character in a bracket class. -/
def inClass (ranges : List (Char × Char)) (c : Char) : Bool :=
  ranges.any fun r => decide (r.1.toNat ≤ c.toNat) && decide (c.toNat ≤ r.2.toNat)

/-- The regex operator `a+`. -/
def plus (a : Regex) : Regex := cat a (star a)

/-- The regex operator `a?`. -/
def opt (a : Regex) : Regex := alt a eps

/-- Does the expression accept the empty string? -/
def nullable : Regex → Bool
  | none => false
  | eps => true
  | cls _ => false
  | cat a b => nullable a && nullable b
  | alt a b => nullable a || nullable b
  | star _ => true

/-- Brzozowski derivative with respect to one character. -/
def deriv (c : Char) : Regex → Regex
  | none => none
  | eps => none
  | cls rs => if inClass rs c then eps else none
  | cat a b => if nullable a then alt (cat (deriv c a) b) (deriv c b) else cat (deriv c a) b
  | alt a b => alt (deriv c a) (deriv c b)
  | star a => cat (deriv c a) (star a)

/-- Whole-input match of a list of characters. -/
def matchList : Regex → List Char → Bool
  | r, [] => nullable r
  | r, c :: cs => matchList (deriv c r) cs

/-- The method `MatchString` for a pattern anchored with `^` and `$`. -/
def MatchString (r : Regex) (s : String) : Bool := matchList r s.toList

/-- The language denoted by an expression. -/
def lang : Regex → List Char → Prop
  | none => fun _ => False
  | eps => fun s => s = []
  | cls rs => fun s => ∃ c, s = [c] ∧ inClass rs c = true
  | cat a b => fun s => ∃ x y, s = x ++ y ∧ lang a x ∧ lang b y
  | alt a b => fun s => lang a s ∨ lang b s
  | star a => fun s => ∃ L : List (List Char), s = L.flatten ∧ ∀ x ∈ L, lang a x

end Regex

/-- The class `\d` (ASCII digits only in Go's RE2 syntax). -/
def digitClass : Regex := .cls [('0', '9')]

/-- Pattern `^[a-z0-9]([-a-z0-9]*[a-z0-9])?$`. -/
def nameRegex : Regex :=
  .cat (.cls [('a', 'z'), ('0', '9')])
    (Regex.opt (.cat (.star (.cls [('-', '-'), ('a', 'z'), ('0', '9')]))
      (.cls [('a', 'z'), ('0', '9')])))

/-- Pattern `^\d+(\.\d+)?[m]?$`. -/
def cpuRegex : Regex :=
  .cat (Regex.plus digitClass)
    (.cat (Regex.opt (.cat (.cls [('.', '.')]) (Regex.plus digitClass)))
      (Regex.opt (.cls [('m', 'm')])))

/-- Pattern `^\d+(\.\d+)?[KMGT]i?$`. -/
def memRegex : Regex :=
  .cat (Regex.plus digitClass)
    (.cat (Regex.opt (.cat (.cls [('.', '.')]) (Regex.plus digitClass)))
      (.cat (.cls [('K', 'K'), ('M', 'M'), ('G', 'G'), ('T', 'T')])
        (Regex.opt (.cls [('i', 'i')]))))

/-! ## The request (`main.go`) -/

/-- The struct `EnvironmentRequest`. -/
structure EnvironmentRequest where
  Name : String
  Branch : String
  CPU : String
  Memory : String
  Replicas : Int
  Dependencies : List String
  EnvType : String
  EnvVars : List (String × String)
  deriving Repr, DecidableEq

/-! ## `validation.go` -/

deriving instance DecidableEq for Except

/-- Wrapping `fmt.Errorf(pre + "%w", err)` of a failed check; a `nil` error passes through. -/
def wrapErr (pre : String) : Except String Unit → Except String Unit
  | .error msg => .error (pre ++ msg)
  | .ok u => .ok u

/-- The function `strings.Contains`. -/
def stringsContains (s substr : String) : Bool :=
  s.toList.tails.any fun t => substr.toList.isPrefixOf t

/-- A Go map `map[string]bool` indexed at a key: the stored value, or `false` when absent. -/
def mapIndexBool (m : List (String × Bool)) (k : String) : Bool :=
  (m.lookup k).getD false

/-- Source: `validateName`. -/
def validateName (name : String) : Except String Unit :=
  if name = "" then
    .error "name cannot be empty"
  else if name.utf8ByteSize > 63 then
    .error "name cannot be longer than 63 characters"
  else if !(nameRegex.MatchString name) then
    .error ("name must contain only lowercase alphanumeric characters and hyphens, " ++
      "and must start and end with an alphanumeric character")
  else
    .ok ()

/-- The slice `invalidChars` of `validateBranch`. -/
def invalidChars : List String :=
  [" ", "\t", "\n", "\r", "~", "^", ":", "?", "*", "[", "\\"]

/-- The `for … range invalidChars` loop of `validateBranch`. -/
def validateBranchLoop (branch : String) : List String → Except String Unit
  | [] => .ok ()
  | char :: rest =>
    if stringsContains branch char then
      .error ("branch name contains invalid character: " ++ char)
    else
      validateBranchLoop branch rest

/-- Source: `validateBranch`. -/
def validateBranch (branch : String) : Except String Unit :=
  if branch = "" then
    .error "branch cannot be empty"
  else if branch.utf8ByteSize > 255 then
    .error "branch name cannot be longer than 255 characters"
  else
    validateBranchLoop branch invalidChars

/-- Source: `validateCPU`. -/
def validateCPU (cpu : String) : Except String Unit :=
  if !(cpuRegex.MatchString cpu) then
    .error "CPU must be in format like '100m', '0.5', '1', '2'"
  else
    .ok ()

/-- Source: `validateMemory`. -/
def validateMemory (memory : String) : Except String Unit :=
  if !(memRegex.MatchString memory) then
    .error "memory must be in format like '128Mi', '1Gi', '512M', '1G'"
  else
    .ok ()

/-- The map `validDeps` of `validateDependencies`. -/
def validDeps : List (String × Bool) :=
  [("postgresql", true), ("redis", true), ("mongodb", true)]

/-- Source: `validateDependencies`. -/
def validateDependencies : List String → Except String Unit
  | [] => .ok ()
  | dep :: rest =>
    if !(mapIndexBool validDeps dep) then
      .error ("unsupported dependency: " ++ dep ++ ". Supported: postgresql, redis, mongodb")
    else
      validateDependencies rest

/-- The map `validTypes` of `validateEnvType`. -/
def validTypes : List (String × Bool) :=
  [("dev", true), ("staging", true), ("prod", true)]

/-- Source: `validateEnvType`. -/
def validateEnvType (envType : String) : Except String Unit :=
  if envType = "" then
    .ok ()
  else if !(mapIndexBool validTypes envType) then
    .error ("unsupported environment type: " ++ envType ++ ". Supported: dev, staging, prod")
  else
    .ok ()

/-- Source: `ValidateEnvironmentRequest`. -/
def ValidateEnvironmentRequest (req : EnvironmentRequest) : Except String Unit := do
  wrapErr "invalid name: " (validateName req.Name)
  wrapErr "invalid branch: " (validateBranch req.Branch)
  if req.CPU ≠ "" then
    wrapErr "invalid CPU: " (validateCPU req.CPU)
  if req.Memory ≠ "" then
    wrapErr "invalid memory: " (validateMemory req.Memory)
  if req.Replicas < 0 ∨ req.Replicas > 10 then
    throw "replicas must be between 0 and 10"
  wrapErr "invalid dependencies: " (validateDependencies req.Dependencies)
  wrapErr "invalid environment type: " (validateEnvType req.EnvType)
  return ()

/-! ## `argocd.go`: data model -/

/-- The anonymous struct `Target` of a patch. -/
structure PatchTarget where
  Kind : String
  Name : String
  deriving Repr, DecidableEq

/-- The struct `ArgoCDKustomizePatch`. -/
structure ArgoCDKustomizePatch where
  Patch : String
  Target : PatchTarget
  deriving Repr, DecidableEq

/-- The struct `ArgoCDJsonPatch`. -/
structure ArgoCDJsonPatch where
  Target : PatchTarget
  Patch : String
  deriving Repr, DecidableEq

/-- The struct `ArgoCDKustomizeConfig`; a `nil` slice is the empty list. -/
structure ArgoCDKustomizeConfig where
  Images : List String
  Patches : List ArgoCDKustomizePatch
  PatchesJSON6902 : List ArgoCDJsonPatch
  deriving Repr, DecidableEq

/-- The struct `ArgoCDDirectory`. -/
structure ArgoCDDirectory where
  Recurse : Bool
  deriving Repr, DecidableEq

/-- The struct `ArgoCDApplicationSource`; a `nil` pointer is `none`. -/
structure ArgoCDApplicationSource where
  RepoURL : String
  TargetRevision : String
  Path : String
  Kustomize : Option ArgoCDKustomizeConfig
  Directory : Option ArgoCDDirectory
  deriving Repr, DecidableEq

/-- The struct `ArgoCDDestination`. -/
structure ArgoCDDestination where
  Server : String
  Namespace : String
  deriving Repr, DecidableEq

/-- The struct `ArgoCDAutomatedSync`. -/
structure ArgoCDAutomatedSync where
  SelfHeal : Bool
  Prune : Bool
  deriving Repr, DecidableEq

/-- The struct `ArgoCDSyncPolicy`. -/
structure ArgoCDSyncPolicy where
  Automated : Option ArgoCDAutomatedSync
  SyncOptions : List String
  deriving Repr, DecidableEq

/-- The struct `ArgoCDApplicationSpec`. -/
structure ArgoCDApplicationSpec where
  Project : String
  Source : ArgoCDApplicationSource
  Destination : ArgoCDDestination
  SyncPolicy : Option ArgoCDSyncPolicy
  deriving Repr, DecidableEq

/-- The struct `ArgoCDApplicationMetadata`; `Labels` is the map literal in source order. -/
structure ArgoCDApplicationMetadata where
  Name : String
  Namespace : String
  Labels : List (String × String)
  deriving Repr, DecidableEq

/-- The struct `ArgoCDApplication`. -/
structure ArgoCDApplication where
  APIVersion : String
  Kind : String
  Metadata : ArgoCDApplicationMetadata
  Spec : ArgoCDApplicationSpec
  deriving Repr, DecidableEq

/-! ## `argocd.go`: the builders -/

/-- Source: `buildApplication` (the receiver is not read). -/
def buildApplication (req : EnvironmentRequest) : ArgoCDApplication :=
  { APIVersion := "argoproj.io/v1alpha1"
    Kind := "Application"
    Metadata :=
      { Name := req.Name
        Namespace := "argocd"
        Labels := [("managed-by", "meeseeks"), ("env-type", req.EnvType)] }
    Spec :=
      { Project := "default"
        Source :=
          { RepoURL := "https://github.com/mateothegreat/k8-byexamples-nginx"
            TargetRevision := "master"
            Path := "manifests"
            Kustomize := none
            Directory := none }
        Destination :=
          { Server := "https://kubernetes.default.svc"
            Namespace := "env-" ++ req.Name }
        SyncPolicy := some
          { Automated := some { SelfHeal := true, Prune := true }
            SyncOptions := ["CreateNamespace=true"] } } }

/-- Source: `buildResourcePatch`; each `patch += …` is one rebinding of `patch`. -/
def buildResourcePatch (req : EnvironmentRequest) : ArgoCDKustomizePatch :=
  let patch : String :=
    "\n- op: replace\n  path: /spec/template/spec/containers/0/resources\n  value:\n    requests:"
  let patch := if req.CPU ≠ "" then patch ++ ("\n      cpu: \"" ++ req.CPU ++ "\"") else patch
  let patch :=
    if req.Memory ≠ "" then patch ++ ("\n      memory: \"" ++ req.Memory ++ "\"") else patch
  let patch := patch ++ "\n    limits:"
  let patch := if req.CPU ≠ "" then patch ++ ("\n      cpu: \"" ++ req.CPU ++ "\"") else patch
  let patch :=
    if req.Memory ≠ "" then patch ++ ("\n      memory: \"" ++ req.Memory ++ "\"") else patch
  let patch :=
    if req.Replicas > 0 then
      patch ++ ("\n- op: replace\n  path: /spec/replicas\n  value: " ++ toString req.Replicas)
    else patch
  { Patch := patch, Target := { Kind := "Deployment", Name := "app" } }

/-- The raw string assigned to `patch` in the `case "postgresql"` branch of `buildDependencyPatch`. -/
def postgresqlPatch : String :=
  String.join
    ["\napiVersion: apps/v1",
     "\nkind: Deployment",
     "\nmetadata:",
     "\n  name: postgresql",
     "\nspec:",
     "\n  replicas: 1",
     "\n  selector:",
     "\n    matchLabels:",
     "\n      app: postgresql",
     "\n  template:",
     "\n    metadata:",
     "\n      labels:",
     "\n        app: postgresql",
     "\n    spec:",
     "\n      containers:",
     "\n      - name: postgresql",
     "\n        image: postgres:14",
     "\n        env:",
     "\n        - name: POSTGRES_DB",
     "\n          value: myapp",
     "\n        - name: POSTGRES_USER",
     "\n          value: user",
     "\n        - name: POSTGRES_PASSWORD",
     "\n          value: password",
     "\n        ports:",
     "\n        - containerPort: 5432"]

/-- The raw string assigned to `patch` in the `case "redis"` branch of `buildDependencyPatch`. -/
def redisPatch : String :=
  String.join
    ["\napiVersion: apps/v1",
     "\nkind: Deployment",
     "\nmetadata:",
     "\n  name: redis",
     "\nspec:",
     "\n  replicas: 1",
     "\n  selector:",
     "\n    matchLabels:",
     "\n      app: redis",
     "\n  template:",
     "\n    metadata:",
     "\n      labels:",
     "\n        app: redis",
     "\n    spec:",
     "\n      containers:",
     "\n      - name: redis",
     "\n        image: redis:7",
     "\n        ports:",
     "\n        - containerPort: 6379"]

/-- The raw string assigned to `patch` in the `case "mongodb"` branch of `buildDependencyPatch`. -/
def mongodbPatch : String :=
  String.join
    ["\napiVersion: apps/v1",
     "\nkind: Deployment",
     "\nmetadata:",
     "\n  name: mongodb",
     "\nspec:",
     "\n  replicas: 1",
     "\n  selector:",
     "\n    matchLabels:",
     "\n      app: mongodb",
     "\n  template:",
     "\n    metadata:",
     "\n      labels:",
     "\n        app: mongodb",
     "\n    spec:",
     "\n      containers:",
     "\n      - name: mongodb",
     "\n        image: mongo:6",
     "\n        env:",
     "\n        - name: MONGO_INITDB_ROOT_USERNAME",
     "\n          value: root",
     "\n        - name: MONGO_INITDB_ROOT_PASSWORD",
     "\n          value: password",
     "\n        ports:",
     "\n        - containerPort: 27017"]

/-- Source: `buildDependencyPatch`; without a matching `case` the variable `patch` keeps its
zero value, the empty string. -/
def buildDependencyPatch (dependency : String) : ArgoCDKustomizePatch :=
  let patch : String :=
    if dependency = "postgresql" then postgresqlPatch
    else if dependency = "redis" then redisPatch
    else if dependency = "mongodb" then mongodbPatch
    else ""
  { Patch := patch, Target := { Kind := "Deployment", Name := dependency } }

/-- Source: `buildEnvVarsPatch`; the list is the map in the order `range` visits it. -/
def buildEnvVarsPatch (envVars : List (String × String)) : ArgoCDKustomizePatch :=
  let patch : String :=
    "\n- op: add\n  path: /spec/template/spec/containers/0/env\n  value:"
  let patch := envVars.foldl
    (fun acc kv => acc ++ ("\n  - name: " ++ kv.1 ++ "\n    value: \"" ++ kv.2 ++ "\"")) patch
  { Patch := patch, Target := { Kind := "Deployment", Name := "app" } }

/-- Source: `buildKustomizeConfig`; `append(config.Patches, p)` is `config.Patches ++ [p]`. -/
def buildKustomizeConfig (req : EnvironmentRequest) : ArgoCDKustomizeConfig :=
  let config : ArgoCDKustomizeConfig :=
    { Images := ["app=your-app:" ++ req.Branch], Patches := [], PatchesJSON6902 := [] }
  let config :=
    if req.CPU ≠ "" ∨ req.Memory ≠ "" ∨ req.Replicas > 0 then
      { config with Patches := config.Patches ++ [buildResourcePatch req] }
    else config
  let config := req.Dependencies.foldl
    (fun cfg dep => { cfg with Patches := cfg.Patches ++ [buildDependencyPatch dep] }) config
  let config :=
    if req.EnvVars.length > 0 then
      { config with Patches := config.Patches ++ [buildEnvVarsPatch req.EnvVars] }
    else config
  config

/-! ## `argocd.go`: listing -/

/-- The struct `EnvironmentItem`. -/
structure EnvironmentItem where
  ID : String
  Name : String
  Status : String
  URL : String
  deriving Repr, DecidableEq

/-- The struct `EnvironmentList`; a `nil` slice is the empty list. -/
structure EnvironmentList where
  Items : List EnvironmentItem
  deriving Repr, DecidableEq

/-- The anonymous struct `Metadata` of an element of `rawApps.Items`; a `nil` or absent
label map is the empty list. -/
structure RawMetadata where
  Name : String
  Labels : List (String × String)
  deriving Repr, DecidableEq

/-- The anonymous struct `Status.Health` of an element of `rawApps.Items`. -/
structure RawHealth where
  Status : String
  deriving Repr, DecidableEq

/-- The anonymous struct `Status` of an element of `rawApps.Items`. -/
structure RawStatus where
  Health : RawHealth
  deriving Repr, DecidableEq

/-- An element of `rawApps.Items`, the decoded listing response. -/
structure RawApplication where
  Metadata : RawMetadata
  Status : RawStatus
  deriving Repr, DecidableEq

/-- A Go map `map[string]string` indexed at a key: the stored value, or `""` when absent. -/
def mapIndexString (m : List (String × String)) (k : String) : String :=
  (m.lookup k).getD ""

/-- Source: `ListApplications`, from the decoded `rawApps.Items` on (lines 172-184): the loop
that appends one `EnvironmentItem` per kept object, and the returned list. -/
def ListApplications (rawApps : List RawApplication) : EnvironmentList :=
  let environments : List EnvironmentItem := rawApps.foldl
    (fun environments app =>
      if mapIndexString app.Metadata.Labels "managed-by" = "meeseeks" then
        environments ++
          [{ ID := app.Metadata.Name
             Name := app.Metadata.Name
             Status := app.Status.Health.Status
             URL := "https://" ++ app.Metadata.Name ++ ".dev.example.com" }]
      else environments) []
  { Items := environments }

/-! ## Specification-side vocabulary -/

/-- Spec: a lowercase ASCII letter or a digit. -/
def isLowerAlnum (c : Char) : Bool := c.isLower || c.isDigit

/-- Spec: a lowercase ASCII letter, a digit or a hyphen. -/
def isNameChar (c : Char) : Bool := isLowerAlnum c || c == '-'

/-- Spec: the characters a branch may not contain: space, tab, newline, carriage return,
`~ ^ : ? * [` and the backslash. -/
def forbiddenBranchChars : List Char :=
  [' ', '\t', '\n', '\r', '~', '^', ':', '?', '*', '[', '\\']

/-- Spec: one or more decimal digits, optionally followed by `.` and one or more decimal
digits. -/
def IsDecimalQuantity (s : List Char) : Prop :=
  ∃ a : List Char, a ≠ [] ∧ (∀ c ∈ a, c.isDigit = true) ∧
    (s = a ∨ ∃ b : List Char, b ≠ [] ∧ (∀ c ∈ b, c.isDigit = true) ∧ s = a ++ '.' :: b)

/-- Spec: the recognised memory unit suffixes. -/
def memoryUnits : List String := ["Ki", "Mi", "Gi", "Ti", "K", "M", "G", "T"]

/-- Spec: the structured content of the resource fragment: the entries listed under
`requests` and under `limits` of the resources-replace operation, and the value of the
replicas-replace operation when there is one. -/
structure ResourceFragment where
  requests : List (String × String)
  limits : List (String × String)
  replicas : Option Int
  deriving Repr, DecidableEq

/-- Spec: textual rendering of a list of quantity entries, one quoted entry per line. -/
def renderEntries (es : List (String × String)) : String :=
  String.join (es.map fun e => "\n      " ++ e.1 ++ ": \"" ++ e.2 ++ "\"")

/-- Spec: textual rendering of the replicas-replace operation. -/
def renderReplicasOp (n : Int) : String :=
  "\n- op: replace\n  path: /spec/replicas\n  value: " ++ toString n

/-- Spec: textual rendering of a resource fragment as a JSON-patch operation list. -/
def renderResourceFragment (f : ResourceFragment) : String :=
  "\n- op: replace\n  path: /spec/template/spec/containers/0/resources\n  value:\n    requests:" ++
    renderEntries f.requests ++ "\n    limits:" ++ renderEntries f.limits ++
    (match f.replicas with
     | some n => renderReplicasOp n
     | none => "")

/-- Spec: the quantities a request supplies, cpu before memory. -/
def suppliedQuantities (req : EnvironmentRequest) : List (String × String) :=
  (if req.CPU ≠ "" then [("cpu", req.CPU)] else []) ++
    (if req.Memory ≠ "" then [("memory", req.Memory)] else [])

/-- Spec: the resource fragment the claim describes for a request. -/
def resourceFragmentOf (req : EnvironmentRequest) : ResourceFragment :=
  { requests := suppliedQuantities req
    limits := suppliedQuantities req
    replicas := if req.Replicas > 0 then some req.Replicas else none }

/-- Spec: the text of one name/value entry of the env-var list. -/
def renderEnvEntry (kv : String × String) : String :=
  "\n  - name: " ++ kv.1 ++ "\n    value: \"" ++ kv.2 ++ "\""

/-- Spec: textual rendering of the single add operation on the primary container's env path
with the given value list. -/
def renderEnvAddOp (entries : List (String × String)) : String :=
  "\n- op: add\n  path: /spec/template/spec/containers/0/env\n  value:" ++
    String.join (entries.map renderEnvEntry)

/-- Spec: the opening of a deployment definition whose metadata name is `name`. -/
def deploymentHeader (name : String) : String :=
  "\napiVersion: apps/v1\nkind: Deployment\nmetadata:\n  name: " ++ name ++ "\nspec:"

/-! ## Sample requests -/

/-- A request with cpu, memory and replicas set and nothing else. -/
def reqSized : EnvironmentRequest :=
  { Name := "demo", Branch := "main", CPU := "250m", Memory := "512Mi", Replicas := 3,
    Dependencies := [], EnvType := "", EnvVars := [] }

/-- A request with only replicas set. -/
def reqReplicasOnly : EnvironmentRequest :=
  { Name := "demo", Branch := "main", CPU := "", Memory := "", Replicas := 2,
    Dependencies := [], EnvType := "", EnvVars := [] }

/-- A request with two dependencies. -/
def reqTwoDeps : EnvironmentRequest :=
  { Name := "demo", Branch := "main", CPU := "", Memory := "", Replicas := 0,
    Dependencies := ["postgresql", "redis"], EnvType := "dev", EnvVars := [] }

/-- A request that passes validation. -/
def reqValid : EnvironmentRequest :=
  { Name := "my-env-1", Branch := "feature/login", CPU := "100m", Memory := "256Mi",
    Replicas := 3, Dependencies := ["postgresql", "redis"], EnvType := "dev",
    EnvVars := [("LOG_LEVEL", "debug")] }

/-- A branch name of 128 two-byte characters (256 bytes). -/
def longAccentedBranch : String := String.mk (List.replicate 128 'é')

/-- A remote listing with two marked objects and two unmarked ones. -/
def sampleRawApps : List RawApplication :=
  [{ Metadata := { Name := "alpha", Labels := [("managed-by", "meeseeks"), ("env-type", "dev")] }
     Status := { Health := { Status := "Healthy" } } },
   { Metadata := { Name := "argo-internal", Labels := [] }
     Status := { Health := { Status := "Healthy" } } },
   { Metadata := { Name := "other", Labels := [("managed-by", "helm")] }
     Status := { Health := { Status := "Degraded" } } },
   { Metadata := { Name := "beta", Labels := [("env-type", ""), ("managed-by", "meeseeks")] }
     Status := { Health := { Status := "Progressing" } } }]

/-- A request whose branch is empty and whose replicas is 11. -/
def reqEmptyBranch : EnvironmentRequest :=
  { Name := "demo", Branch := "", CPU := "", Memory := "", Replicas := 11,
    Dependencies := [], EnvType := "", EnvVars := [] }

/-- A request that fails first in its dependencies, at the entry "mysql". -/
def reqBadDependency : EnvironmentRequest :=
  { Name := "demo", Branch := "main", CPU := "", Memory := "", Replicas := 1,
    Dependencies := ["redis", "mysql", "oracle"], EnvType := "nope", EnvVars := [] }

/-- A request that passes validation and whose single environment variable A has a value
holding a double quote and line breaks. -/
def reqInjectedEnv : EnvironmentRequest :=
  { Name := "demo", Branch := "main", CPU := "", Memory := "", Replicas := 0,
    Dependencies := [], EnvType := "dev",
    EnvVars := [("A", "1\"\n  - name: B\n    value: \"2")] }

/-! ## Correctness of the derivative matcher -/

namespace Regex

theorem nullable_iff (r : Regex) : nullable r = true ↔ lang r [] := by
  induction r with
  | none => simp [nullable, lang]
  | eps => simp [nullable, lang]
  | cls rs => simp [nullable, lang]
  | cat a b iha ihb =>
    simp only [nullable, lang, Bool.and_eq_true, iha, ihb]
    constructor
    · rintro ⟨h1, h2⟩
      exact ⟨[], [], rfl, h1, h2⟩
    · rintro ⟨x, y, hxy, h1, h2⟩
      have hx : x = [] := by
        cases x with
        | nil => rfl
        | cons _ _ => simp at hxy
      have hy : y = [] := by
        subst hx
        simpa using hxy.symm
      subst hx; subst hy
      exact ⟨h1, h2⟩
  | alt a b iha ihb => simp [nullable, lang, iha, ihb]
  | star a _ =>
    simp only [nullable, lang, true_iff]
    exact ⟨[], rfl, by simp⟩

theorem star_cons_iff (a : Regex) (c : Char) (s : List Char) :
    lang (star a) (c :: s) ↔ ∃ x y, s = x ++ y ∧ lang a (c :: x) ∧ lang (star a) y := by
  constructor
  · rintro ⟨L, hL, hall⟩
    induction L with
    | nil => simp at hL
    | cons w L ih =>
      cases w with
      | nil =>
        apply ih
        · simpa using hL
        · intro x hx
          exact hall x (List.mem_cons_of_mem _ hx)
      | cons d w =>
        simp only [List.flatten_cons, List.cons_append, List.cons.injEq] at hL
        obtain ⟨hd, hs⟩ := hL
        subst hd
        refine ⟨w, L.flatten, hs, hall _ (List.mem_cons_self _ _), L, rfl, ?_⟩
        intro x hx
        exact hall x (List.mem_cons_of_mem _ hx)
  · rintro ⟨x, y, hs, hx, L, hy, hall⟩
    refine ⟨(c :: x) :: L, ?_, ?_⟩
    · simp [hs, hy]
    · intro z hz
      rcases List.mem_cons.mp hz with h | h
      · subst h; exact hx
      · exact hall z h

theorem deriv_iff (r : Regex) (c : Char) (s : List Char) :
    lang (deriv c r) s ↔ lang r (c :: s) := by
  induction r generalizing s with
  | none => simp [deriv, lang]
  | eps => simp [deriv, lang]
  | cls rs =>
    by_cases h : inClass rs c = true
    · simp only [deriv, h, if_true, lang]
      constructor
      · intro hs; subst hs; exact ⟨c, rfl, h⟩
      · rintro ⟨d, hd, _⟩
        simp only [List.cons.injEq] at hd
        exact hd.2
    · simp only [deriv, h, lang]
      constructor
      · intro hf; exact hf.elim
      · rintro ⟨d, hd, hin⟩
        simp only [List.cons.injEq] at hd
        rw [← hd.1] at hin
        exact h hin
  | cat a b iha ihb =>
    have key : lang (cat a b) (c :: s) ↔
        (∃ x y, s = x ++ y ∧ lang a (c :: x) ∧ lang b y) ∨ (lang a [] ∧ lang b (c :: s)) := by
      simp only [lang]
      constructor
      · rintro ⟨x, y, hxy, hx, hy⟩
        cases x with
        | nil =>
          right
          simp only [List.nil_append] at hxy
          subst hxy
          exact ⟨hx, hy⟩
        | cons d x =>
          left
          simp only [List.cons_append, List.cons.injEq] at hxy
          obtain ⟨hd, hs⟩ := hxy
          subst hd
          exact ⟨x, y, hs, hx, hy⟩
      · rintro (⟨x, y, hs, hx, hy⟩ | ⟨hx, hy⟩)
        · exact ⟨c :: x, y, by simp [hs], hx, hy⟩
        · exact ⟨[], c :: s, rfl, hx, hy⟩
    rw [key]
    by_cases hn : nullable a = true
    · have hn2 := (nullable_iff a).mp hn
      simp only [deriv, hn, if_true, lang, ihb, hn2, true_and]
      constructor
      · rintro (⟨x, y, hs, hx, hy⟩ | h)
        · exact Or.inl ⟨x, y, hs, (iha x).mp hx, hy⟩
        · exact Or.inr h
      · rintro (⟨x, y, hs, hx, hy⟩ | h)
        · exact Or.inl ⟨x, y, hs, (iha x).mpr hx, hy⟩
        · exact Or.inr h
    · have hn2 : ¬ lang a [] := fun h => hn ((nullable_iff a).mpr h)
      simp only [deriv, hn, lang, hn2, false_and, or_false]
      constructor
      · rintro ⟨x, y, hs, hx, hy⟩
        exact ⟨x, y, hs, (iha x).mp hx, hy⟩
      · rintro ⟨x, y, hs, hx, hy⟩
        exact ⟨x, y, hs, (iha x).mpr hx, hy⟩
  | alt a b iha ihb => simp [deriv, lang, iha, ihb]
  | star a iha =>
    rw [star_cons_iff]
    simp only [deriv]
    constructor
    · rintro ⟨x, y, hs, hx, hy⟩
      exact ⟨x, y, hs, (iha x).mp hx, hy⟩
    · rintro ⟨x, y, hs, hx, hy⟩
      exact ⟨x, y, hs, (iha x).mpr hx, hy⟩

theorem matchList_iff (r : Regex) (s : List Char) : matchList r s = true ↔ lang r s := by
  induction s generalizing r with
  | nil => simpa [matchList] using nullable_iff r
  | cons c cs ih => simp only [matchList, ih, deriv_iff]

theorem MatchString_iff (r : Regex) (s : String) : MatchString r s = true ↔ lang r s.toList :=
  matchList_iff r s.toList

end Regex


/-! ## Auxiliary facts: languages of the building blocks -/

namespace Regex

theorem lang_cat (a b : Regex) (s : List Char) :
    lang (cat a b) s ↔ ∃ x y, s = x ++ y ∧ lang a x ∧ lang b y := Iff.rfl

theorem lang_cls (rs : List (Char × Char)) (s : List Char) :
    lang (cls rs) s ↔ ∃ c, s = [c] ∧ inClass rs c = true := Iff.rfl

theorem lang_opt (r : Regex) (s : List Char) : lang (opt r) s ↔ lang r s ∨ s = [] := Iff.rfl

theorem lang_star_cls (rs : List (Char × Char)) (s : List Char) :
    lang (star (cls rs)) s ↔ ∀ c ∈ s, inClass rs c = true := by
  constructor
  · rintro ⟨L, hL, hall⟩ c hc
    subst hL
    obtain ⟨x, hx, hcx⟩ := List.mem_flatten.mp hc
    obtain ⟨d, hd, hin⟩ := hall x hx
    subst hd
    simp only [List.mem_singleton] at hcx
    subst hcx
    exact hin
  · intro h
    refine ⟨s.map fun c => [c], ?_, ?_⟩
    · clear h
      induction s with
      | nil => rfl
      | cons c cs ih => simp only [List.map_cons, List.flatten_cons, List.singleton_append, ← ih]
    · intro x hx
      obtain ⟨c, hc, hcx⟩ := List.mem_map.mp hx
      exact ⟨c, hcx.symm, h c hc⟩

theorem lang_plus_cls (rs : List (Char × Char)) (s : List Char) :
    lang (plus (cls rs)) s ↔ s ≠ [] ∧ ∀ c ∈ s, inClass rs c = true := by
  constructor
  · rintro ⟨x, y, hs, ⟨c, hx, hin⟩, hy⟩
    subst hx; subst hs
    refine ⟨by simp, ?_⟩
    intro d hd
    rcases List.mem_cons.mp hd with h | h
    · subst h; exact hin
    · exact (lang_star_cls rs y).mp hy d h
  · rintro ⟨hne, h⟩
    cases s with
    | nil => exact (hne rfl).elim
    | cons c cs =>
      refine ⟨[c], cs, rfl, ⟨c, rfl, h c (List.mem_cons_self _ _)⟩, ?_⟩
      exact (lang_star_cls rs cs).mpr fun d hd => h d (List.mem_cons_of_mem _ hd)

theorem inClass_digit (c : Char) : inClass [('0', '9')] c = c.isDigit := by
  simp only [inClass, List.any_cons, List.any_nil, Bool.or_false, Char.isDigit]
  rfl

theorem inClass_lowerAlnum (c : Char) :
    inClass [('a', 'z'), ('0', '9')] c = isLowerAlnum c := by
  simp only [inClass, List.any_cons, List.any_nil, Bool.or_false, Char.isDigit, Char.isLower,
    isLowerAlnum]
  rfl

theorem inClass_single (a c : Char) : inClass [(a, a)] c = true ↔ c = a := by
  simp only [inClass, List.any_cons, List.any_nil, Bool.or_false, Bool.and_eq_true,
    decide_eq_true_eq]
  constructor
  · rintro ⟨h1, h2⟩
    have h : c.toNat = a.toNat := Nat.le_antisymm h2 h1
    rw [← Char.ofNat_toNat c, h, Char.ofNat_toNat]
  · rintro rfl
    exact ⟨le_refl _, le_refl _⟩

theorem inClass_cons (r : Char × Char) (rs : List (Char × Char)) (c : Char) :
    inClass (r :: rs) c = (inClass [r] c || inClass rs c) := by
  simp [inClass]

theorem inClass_nameChar (c : Char) :
    inClass [('-', '-'), ('a', 'z'), ('0', '9')] c = true ↔ isNameChar c = true := by
  rw [inClass_cons, inClass_lowerAlnum, Bool.or_eq_true, inClass_single, isNameChar,
    Bool.or_eq_true, beq_iff_eq]
  exact Or.comm

end Regex

theorem isLowerAlnum_ascii (c : Char) (h : isLowerAlnum c = true) : c.utf8Size = 1 := by
  have hle : c.val ≤ 127 := by
    simp only [isLowerAlnum, Char.isLower, Char.isDigit, Bool.or_eq_true, Bool.and_eq_true,
      decide_eq_true_eq] at h
    rcases h with ⟨_, h⟩ | ⟨_, h⟩
    · exact UInt32.le_trans h (by decide)
    · exact UInt32.le_trans h (by decide)
  simp [Char.utf8Size, hle]

theorem isNameChar_ascii (c : Char) (h : isNameChar c = true) : c.utf8Size = 1 := by
  simp only [isNameChar, Bool.or_eq_true, beq_iff_eq] at h
  rcases h with h | h
  · exact isLowerAlnum_ascii c h
  · subst h; decide

theorem utf8Len_eq_length (l : List Char) (h : ∀ c ∈ l, c.utf8Size = 1) :
    String.utf8Len l = l.length := by
  induction l with
  | nil => rfl
  | cons c cs ih =>
    rw [String.utf8Len_cons, h c (List.mem_cons_self _ _),
      ih fun d hd => h d (List.mem_cons_of_mem _ hd), List.length_cons]

theorem length_le_utf8Len (l : List Char) : l.length ≤ String.utf8Len l := by
  induction l with
  | nil => exact Nat.le_refl _
  | cons c cs ih =>
    rw [String.utf8Len_cons, List.length_cons]
    have := Char.utf8Size_pos c
    omega

theorem utf8ByteSize_eq (s : String) : s.utf8ByteSize = String.utf8Len s.toList := by
  cases s; rfl

theorem string_ne_empty_iff (s : String) : s ≠ "" ↔ s.toList ≠ [] := by
  cases s with
  | mk l =>
    constructor
    · intro h hl
      apply h
      show String.mk l = String.mk []
      rw [show l = [] from hl]
    · intro h hs
      apply h
      exact congrArg String.data hs

/-- The language of `nameRegex`, spelled out. -/
theorem lang_nameRegex (l : List Char) :
    Regex.lang nameRegex l ↔
      l ≠ [] ∧ (∀ c ∈ l, isNameChar c = true) ∧
        (∃ c, l.head? = some c ∧ isLowerAlnum c = true) ∧
        (∃ c, l.getLast? = some c ∧ isLowerAlnum c = true) := by
  have hal : ∀ c, isLowerAlnum c = true → isNameChar c = true := by
    intro c h; simp [isNameChar, h]
  simp only [nameRegex, Regex.lang_cat, Regex.lang_opt, Regex.lang_cls, Regex.lang_star_cls,
    Regex.inClass_lowerAlnum, Regex.inClass_nameChar]
  constructor
  · rintro ⟨x, y, hl, ⟨c, hx, hc⟩, (⟨u, v, hy, hu, d, hv, hd⟩ | hy)⟩
    · subst hx; subst hv; subst hy; subst hl
      refine ⟨by simp, ?_, ⟨c, by simp, hc⟩, ⟨d, ?_, hd⟩⟩
      · intro e he
        simp only [List.singleton_append, List.mem_cons, List.mem_append, List.mem_singleton,
          List.not_mem_nil, or_false] at he
        rcases he with h | h | h
        · subst h; exact hal _ hc
        · exact hu e h
        · subst h; exact hal _ hd
      · rw [← List.append_assoc, List.getLast?_append]
        simp
    · subst hx; subst hy; subst hl
      refine ⟨by simp, ?_, ⟨c, by simp, hc⟩, ⟨c, by simp, hc⟩⟩
      intro e he
      simp only [List.append_nil, List.mem_singleton] at he
      subst he; exact hal _ hc
  · rintro ⟨hne, hall, ⟨c, hhead, hc⟩, ⟨d, hlast, hd⟩⟩
    cases l with
    | nil => exact (hne rfl).elim
    | cons c0 t =>
      simp only [List.head?_cons, Option.some.injEq] at hhead
      subst hhead
      rcases List.eq_nil_or_concat t with ht | ⟨u, e, ht⟩
      · subst ht
        exact ⟨[c0], [], rfl, ⟨c0, rfl, hc⟩, Or.inr rfl⟩
      · rw [List.concat_eq_append] at ht
        subst ht
        have hde : e = d := by
          rw [← List.cons_append, List.getLast?_append] at hlast
          simpa using hlast
        subst hde
        refine ⟨[c0], u ++ [e], rfl, ⟨c0, rfl, hc⟩, Or.inl ⟨u, [e], rfl, ?_, e, rfl, hd⟩⟩
        intro x hx
        exact hall x (List.mem_cons_of_mem _ (List.mem_append_left _ hx))

theorem validateName_ok_iff_lang (s : String) :
    validateName s = .ok () ↔
      s ≠ "" ∧ s.utf8ByteSize ≤ 63 ∧ Regex.lang nameRegex s.toList := by
  unfold validateName
  rw [← Regex.MatchString_iff]
  by_cases h1 : s = ""
  · simp [h1]
  · by_cases h2 : s.utf8ByteSize > 63
    · simp [h1, h2]
    · by_cases h3 : nameRegex.MatchString s = true
      · simp [h1, h2, h3, Nat.le_of_not_gt h2]
      · simp [h1, h2, h3, Nat.le_of_not_gt h2]


theorem validateName_ok_iff_shape (s : String) :
    validateName s = .ok () ↔
      s ≠ "" ∧ s.length ≤ 63 ∧ (∀ c ∈ s.toList, isNameChar c = true) ∧
        (∃ c, s.toList.head? = some c ∧ isLowerAlnum c = true) ∧
        (∃ c, s.toList.getLast? = some c ∧ isLowerAlnum c = true) := by
  rw [validateName_ok_iff_lang, lang_nameRegex, utf8ByteSize_eq]
  have hlen : s.length = s.toList.length := rfl
  constructor
  · rintro ⟨h1, h2, h3, hall, h4, h5⟩
    refine ⟨h1, ?_, hall, h4, h5⟩
    rw [hlen, ← utf8Len_eq_length _ fun c hc => isNameChar_ascii c (hall c hc)]
    exact h2
  · rintro ⟨h1, h2, hall, h4, h5⟩
    refine ⟨h1, ?_, (string_ne_empty_iff s).mp h1, hall, h4, h5⟩
    rw [utf8Len_eq_length _ fun c hc => isNameChar_ascii c (hall c hc), ← hlen]
    exact h2

/-- The decimal part shared by `cpuRegex` and `memRegex`: `\d+(\.\d+)?`. -/
theorem lang_decimal (q : List Char) :
    (∃ x y, q = x ++ y ∧ Regex.lang (Regex.plus digitClass) x ∧
        Regex.lang (Regex.opt (.cat (.cls [('.', '.')]) (Regex.plus digitClass))) y) ↔
      IsDecimalQuantity q := by
  simp only [digitClass, Regex.lang_opt, Regex.lang_cat, Regex.lang_cls, Regex.lang_plus_cls,
    Regex.inClass_digit, Regex.inClass_single, IsDecimalQuantity]
  constructor
  · rintro ⟨x, y, hq, ⟨hx, hxd⟩, (⟨u, b, hy, ⟨c, hu, hc⟩, hb, hbd⟩ | hy)⟩
    · subst hc; subst hu; subst hy; subst hq
      exact ⟨x, hx, hxd, Or.inr ⟨b, hb, hbd, rfl⟩⟩
    · subst hy; subst hq
      exact ⟨x, hx, hxd, Or.inl (List.append_nil x)⟩
  · rintro ⟨a, ha, had, (hq | ⟨b, hb, hbd, hq⟩)⟩
    · subst hq
      exact ⟨q, [], (List.append_nil q).symm, ⟨ha, had⟩, Or.inr rfl⟩
    · subst hq
      exact ⟨a, '.' :: b, rfl, ⟨ha, had⟩, Or.inl ⟨['.'], b, rfl, ⟨'.', rfl, rfl⟩, hb, hbd⟩⟩

theorem lang_cpuRegex (l : List Char) :
    Regex.lang cpuRegex l ↔ ∃ q, IsDecimalQuantity q ∧ (l = q ∨ l = q ++ ['m']) := by
  constructor
  · rintro ⟨x, w, hl, hx, y, z, hw, hy, hz⟩
    have hq : IsDecimalQuantity (x ++ y) := (lang_decimal _).mp ⟨x, y, rfl, hx, hy⟩
    refine ⟨x ++ y, hq, ?_⟩
    rcases hz with ⟨c, hz, hc⟩ | hz
    · right
      have hcm : c = 'm' := (Regex.inClass_single 'm' c).mp hc
      subst hcm; subst hz; subst hw; subst hl
      exact (List.append_assoc x y ['m']).symm
    · left
      subst hz; subst hw; subst hl
      rw [List.append_nil]
  · rintro ⟨q, hq, hl⟩
    obtain ⟨x, y, hxy, hx, hy⟩ := (lang_decimal q).mpr hq
    subst hxy
    rcases hl with hl | hl
    · subst hl
      exact ⟨x, y, rfl, hx, y, [], (List.append_nil y).symm, hy, Or.inr rfl⟩
    · subst hl
      exact ⟨x, y ++ ['m'], List.append_assoc x y ['m'], hx, y, ['m'], rfl, hy,
        Or.inl ⟨'m', rfl, (Regex.inClass_single 'm' 'm').mpr rfl⟩⟩

theorem validateCPU_ok_iff_lang (s : String) :
    validateCPU s = .ok () ↔ Regex.lang cpuRegex s.toList := by
  unfold validateCPU
  rw [← Regex.MatchString_iff]
  by_cases h : cpuRegex.MatchString s = true <;> simp [h]

theorem inClass_unit (c : Char) :
    Regex.inClass [('K', 'K'), ('M', 'M'), ('G', 'G'), ('T', 'T')] c = true ↔
      c = 'K' ∨ c = 'M' ∨ c = 'G' ∨ c = 'T' := by
  rw [Regex.inClass_cons, Bool.or_eq_true, Regex.inClass_single,
    Regex.inClass_cons, Bool.or_eq_true, Regex.inClass_single,
    Regex.inClass_cons, Bool.or_eq_true, Regex.inClass_single, Regex.inClass_single]

theorem lang_memRegex (l : List Char) :
    Regex.lang memRegex l ↔
      ∃ q u, IsDecimalQuantity q ∧ u ∈ memoryUnits ∧ l = q ++ u.toList := by
  constructor
  · rintro ⟨x, w, hl, hx, y, z, hw, hy, a, b, hz, ⟨c, ha, hc⟩, hb⟩
    have hq : IsDecimalQuantity (x ++ y) := (lang_decimal _).mp ⟨x, y, rfl, hx, hy⟩
    subst ha; subst hz; subst hw; subst hl
    have hcu := (inClass_unit c).mp hc
    rcases hb with ⟨d, hb, hd⟩ | hb
    · have hdi : d = 'i' := (Regex.inClass_single 'i' d).mp hd
      subst hdi; subst hb
      refine ⟨x ++ y, String.mk [c, 'i'], hq, ?_, ?_⟩
      · rcases hcu with h | h | h | h <;> subst h <;> decide
      · simp
    · subst hb
      refine ⟨x ++ y, String.mk [c], hq, ?_, ?_⟩
      · rcases hcu with h | h | h | h <;> subst h <;> decide
      · simp
  · rintro ⟨q, u, hq, hu, hl⟩
    obtain ⟨x, y, hxy, hx, hy⟩ := (lang_decimal q).mpr hq
    subst hxy
    have key : ∀ (c : Char) (t : List Char),
        (c = 'K' ∨ c = 'M' ∨ c = 'G' ∨ c = 'T') → (t = ['i'] ∨ t = []) → l = (x ++ y) ++ c :: t →
          Regex.lang memRegex l := by
      intro c t hc ht hlt
      refine ⟨x, y ++ c :: t, by rw [hlt, List.append_assoc], hx, y, c :: t, rfl, hy,
        [c], t, rfl, ⟨c, rfl, (inClass_unit c).mpr hc⟩, ?_⟩
      rcases ht with ht | ht
      · exact Or.inl ⟨'i', ht, (Regex.inClass_single 'i' 'i').mpr rfl⟩
      · exact Or.inr ht
    simp only [memoryUnits, List.mem_cons, List.mem_singleton, List.not_mem_nil, or_false] at hu
    rcases hu with h | h | h | h | h | h | h | h <;> subst h
    · exact key 'K' ['i'] (by simp) (by simp) hl
    · exact key 'M' ['i'] (by simp) (by simp) hl
    · exact key 'G' ['i'] (by simp) (by simp) hl
    · exact key 'T' ['i'] (by simp) (by simp) hl
    · exact key 'K' [] (by simp) (by simp) hl
    · exact key 'M' [] (by simp) (by simp) hl
    · exact key 'G' [] (by simp) (by simp) hl
    · exact key 'T' [] (by simp) (by simp) hl

theorem validateMemory_ok_iff_lang (s : String) :
    validateMemory s = .ok () ↔ Regex.lang memRegex s.toList := by
  unfold validateMemory
  rw [← Regex.MatchString_iff]
  by_cases h : memRegex.MatchString s = true <;> simp [h]

/-- A decimal quantity ends in a digit. -/
theorem decimal_last_digit (q : List Char) (hq : IsDecimalQuantity q) :
    ∃ c, q.getLast? = some c ∧ c.isDigit = true := by
  have hlast : ∀ a : List Char, a ≠ [] → (∀ c ∈ a, c.isDigit = true) →
      ∃ c, a.getLast? = some c ∧ c.isDigit = true := by
    intro a ha had
    rcases List.eq_nil_or_concat a with h | ⟨u, e, h⟩
    · exact (ha h).elim
    · rw [List.concat_eq_append] at h
      subst h
      exact ⟨e, by simp, had e (by simp)⟩
  obtain ⟨a, ha, had, (h | ⟨b, hb, hbd, h⟩)⟩ := hq
  · subst h; exact hlast q ha had
  · subst h
    obtain ⟨c, hc, hcd⟩ := hlast b hb hbd
    refine ⟨c, ?_, hcd⟩
    rw [show a ++ '.' :: b = (a ++ ['.']) ++ b by simp, List.getLast?_append, hc]
    rfl


/-! ## Auxiliary facts: the branch check and the request check -/

theorem tails_any_single (c : Char) (l : List Char) :
    (l.tails.any fun t => [c].isPrefixOf t) = true ↔ c ∈ l := by
  induction l with
  | nil => simp [List.isPrefixOf]
  | cons a l ih =>
    rw [List.tails, List.any_cons, Bool.or_eq_true, ih, List.mem_cons]
    simp [List.isPrefixOf]

theorem stringsContains_single (s : String) (c : Char) :
    stringsContains s (String.mk [c]) = true ↔ c ∈ s.toList :=
  tails_any_single c s.toList

theorem validateBranchLoop_ok_iff (branch : String) (chars : List String) :
    validateBranchLoop branch chars = .ok () ↔
      ∀ ch ∈ chars, stringsContains branch ch = false := by
  induction chars with
  | nil => simp [validateBranchLoop]
  | cons ch rest ih =>
    by_cases h : stringsContains branch ch = true
    · simp [validateBranchLoop, h]
    · simp [validateBranchLoop, h, ih]

theorem invalidChars_eq : invalidChars = forbiddenBranchChars.map fun c => String.mk [c] := by
  decide

theorem validateBranch_ok_iff (s : String) :
    validateBranch s = .ok () ↔
      s ≠ "" ∧ s.utf8ByteSize ≤ 255 ∧ ∀ c ∈ forbiddenBranchChars, c ∉ s.toList := by
  have hloop : validateBranchLoop s invalidChars = .ok () ↔
      ∀ c ∈ forbiddenBranchChars, c ∉ s.toList := by
    rw [validateBranchLoop_ok_iff, invalidChars_eq]
    constructor
    · intro h c hc hmem
      have := h (String.mk [c]) (List.mem_map.mpr ⟨c, hc, rfl⟩)
      rw [(stringsContains_single s c).mpr hmem] at this
      exact Bool.noConfusion this
    · intro h ch hch
      obtain ⟨c, hc, hcc⟩ := List.mem_map.mp hch
      subst hcc
      cases hsc : stringsContains s (String.mk [c]) with
      | false => rfl
      | true => exact (h c hc ((stringsContains_single s c).mp hsc)).elim
  unfold validateBranch
  by_cases h1 : s = ""
  · simp [h1]
  · by_cases h2 : s.utf8ByteSize > 255
    · simp [h1, h2]
    · simp only [h1, h2, if_false, hloop]
      simp [h1, Nat.le_of_not_gt h2]

theorem mapIndexBool_validDeps (d : String) :
    mapIndexBool validDeps d = true ↔ d = "postgresql" ∨ d = "redis" ∨ d = "mongodb" := by
  by_cases h1 : d = "postgresql"
  · subst h1; simp [mapIndexBool, validDeps, List.lookup]
  · by_cases h2 : d = "redis"
    · subst h2; simp [mapIndexBool, validDeps, List.lookup]
    · by_cases h3 : d = "mongodb"
      · subst h3; simp [mapIndexBool, validDeps, List.lookup]
      · have e1 : (d == "postgresql") = false := beq_eq_false_iff_ne.mpr h1
        have e2 : (d == "redis") = false := beq_eq_false_iff_ne.mpr h2
        have e3 : (d == "mongodb") = false := beq_eq_false_iff_ne.mpr h3
        simp [mapIndexBool, validDeps, List.lookup, h1, h2, h3, e1, e2, e3]

theorem mapIndexBool_validTypes (d : String) :
    mapIndexBool validTypes d = true ↔ d = "dev" ∨ d = "staging" ∨ d = "prod" := by
  by_cases h1 : d = "dev"
  · subst h1; simp [mapIndexBool, validTypes, List.lookup]
  · by_cases h2 : d = "staging"
    · subst h2; simp [mapIndexBool, validTypes, List.lookup]
    · by_cases h3 : d = "prod"
      · subst h3; simp [mapIndexBool, validTypes, List.lookup]
      · have e1 : (d == "dev") = false := beq_eq_false_iff_ne.mpr h1
        have e2 : (d == "staging") = false := beq_eq_false_iff_ne.mpr h2
        have e3 : (d == "prod") = false := beq_eq_false_iff_ne.mpr h3
        simp [mapIndexBool, validTypes, List.lookup, h1, h2, h3, e1, e2, e3]

theorem validateDependencies_ok_iff (deps : List String) :
    validateDependencies deps = .ok () ↔
      ∀ d ∈ deps, d = "postgresql" ∨ d = "redis" ∨ d = "mongodb" := by
  induction deps with
  | nil => simp [validateDependencies]
  | cons d rest ih =>
    by_cases h : mapIndexBool validDeps d = true
    · simp [validateDependencies, h, ih, (mapIndexBool_validDeps d).mp h]
    · have h2 := mt (mapIndexBool_validDeps d).mpr h
      simp [validateDependencies, h, h2]

theorem validateEnvType_ok_iff (t : String) :
    validateEnvType t = .ok () ↔ t = "" ∨ t = "dev" ∨ t = "staging" ∨ t = "prod" := by
  unfold validateEnvType
  by_cases h0 : t = ""
  · simp [h0]
  · by_cases h : mapIndexBool validTypes t = true
    · simp [h0, h, (mapIndexBool_validTypes t).mp h]
    · have h2 := mt (mapIndexBool_validTypes t).mpr h
      simp [h0, h, h2]

theorem wrapErr_ok_iff (pre : String) (e : Except String Unit) :
    wrapErr pre e = .ok () ↔ e = .ok () := by
  cases e <;> simp [wrapErr]

theorem bind_ok_iff (e : Except String Unit) (f : Unit → Except String Unit) :
    (e >>= f) = .ok () ↔ e = .ok () ∧ f () = .ok () := by
  cases e <;> simp [bind, Except.bind]

theorem ValidateEnvironmentRequest_ok_iff (req : EnvironmentRequest) :
    ValidateEnvironmentRequest req = .ok () ↔
      validateName req.Name = .ok () ∧ validateBranch req.Branch = .ok () ∧
      (req.CPU = "" ∨ validateCPU req.CPU = .ok ()) ∧
      (req.Memory = "" ∨ validateMemory req.Memory = .ok ()) ∧
      (0 ≤ req.Replicas ∧ req.Replicas ≤ 10) ∧
      (∀ d ∈ req.Dependencies, d = "postgresql" ∨ d = "redis" ∨ d = "mongodb") ∧
      (req.EnvType = "" ∨ req.EnvType = "dev" ∨ req.EnvType = "staging" ∨
        req.EnvType = "prod") := by
  unfold ValidateEnvironmentRequest
  have hpure : (pure PUnit.unit : Except String Unit) = .ok () := rfl
  have hthrow : ∀ m : String, (throw m : Except String Unit) ≠ .ok () := by
    intro m h; cases h
  have hrange : (0 ≤ req.Replicas ∧ req.Replicas ≤ 10) ↔
      ¬ (req.Replicas < 0 ∨ req.Replicas > 10) := by omega
  rw [hrange]
  by_cases hc : req.CPU = "" <;> by_cases hm : req.Memory = "" <;>
    by_cases hr : (req.Replicas < 0 ∨ req.Replicas > 10) <;>
    simp only [hc, hm, hr, bind_ok_iff, wrapErr_ok_iff, validateDependencies_ok_iff,
      validateEnvType_ok_iff, hpure, hthrow, ne_eq, not_true_eq_false, not_false_eq_true,
      if_true, if_false, true_and, and_true, false_and, and_false, true_or, false_or]

/-! ## Auxiliary facts: the builders -/

theorem foldl_patches (f : String → ArgoCDKustomizePatch) (deps : List String)
    (c : ArgoCDKustomizeConfig) :
    (deps.foldl (fun cfg dep => { cfg with Patches := cfg.Patches ++ [f dep] }) c).Patches =
      c.Patches ++ deps.map f := by
  induction deps generalizing c with
  | nil => simp
  | cons d ds ih => simp [List.foldl_cons, ih]

theorem buildKustomizeConfig_patches_eq (req : EnvironmentRequest) :
    (buildKustomizeConfig req).Patches =
      (if req.CPU ≠ "" ∨ req.Memory ≠ "" ∨ req.Replicas > 0
        then [buildResourcePatch req] else []) ++
      req.Dependencies.map buildDependencyPatch ++
      (if req.EnvVars ≠ [] then [buildEnvVarsPatch req.EnvVars] else []) := by
  have hlen : req.EnvVars.length > 0 ↔ req.EnvVars ≠ [] := by
    cases req.EnvVars <;> simp
  unfold buildKustomizeConfig
  by_cases h1 : (req.CPU ≠ "" ∨ req.Memory ≠ "" ∨ req.Replicas > 0) <;>
    by_cases h2 : req.EnvVars = [] <;>
    simp [h1, h2, hlen, foldl_patches]

theorem buildResourcePatch_patch_eq (req : EnvironmentRequest) :
    (buildResourcePatch req).Patch = renderResourceFragment (resourceFragmentOf req) := by
  have hcpu : ∀ x : String, "\n      " ++ ("cpu" ++ (": \"" ++ x)) = "\n      cpu: \"" ++ x := by
    intro x
    rw [← String.append_assoc, ← String.append_assoc]
    rfl
  have hmem : ∀ x : String,
      "\n      " ++ ("memory" ++ (": \"" ++ x)) = "\n      memory: \"" ++ x := by
    intro x
    rw [← String.append_assoc, ← String.append_assoc]
    rfl
  unfold buildResourcePatch renderResourceFragment resourceFragmentOf suppliedQuantities
    renderEntries renderReplicasOp
  by_cases hc : req.CPU = "" <;> by_cases hm : req.Memory = "" <;>
    by_cases hr : req.Replicas > 0 <;>
    simp [hc, hm, hr, String.join, String.append_assoc, hcpu, hmem]

/-! ## Claims about the descriptor builder and the patch compiler -/

/-- C1 (code bug): the request with cpu "250m", memory "512Mi" and replicas 3 passes
validation and the patch compiler produces one fragment for it, yet the descriptor built by
`buildApplication` has no customization block: the fragment list of `buildKustomizeConfig`
is not attached, so the claim fails at this request. -/
theorem buildApplication_drops_patches :
    ValidateEnvironmentRequest reqSized = .ok () ∧
    (buildKustomizeConfig reqSized).Patches.length = 1 ∧
    (buildApplication reqSized).Spec.Source.Kustomize = none ∧
    ¬ (((buildKustomizeConfig reqSized).Patches ≠ [] →
          ∃ k, (buildApplication reqSized).Spec.Source.Kustomize = some k ∧
            k.Patches = (buildKustomizeConfig reqSized).Patches) ∧
        ((buildKustomizeConfig reqSized).Patches = [] →
          (buildApplication reqSized).Spec.Source.Kustomize = none)) := by
  have hlen : (buildKustomizeConfig reqSized).Patches.length = 1 := by decide
  refine ⟨by decide, hlen, rfl, ?_⟩
  rintro ⟨h, _⟩
  have hne : (buildKustomizeConfig reqSized).Patches ≠ [] := by
    intro he
    rw [he] at hlen
    exact absurd hlen (by decide)
  obtain ⟨k, hk, _⟩ := h hne
  exact Option.noConfusion hk

/-- C3 (counterexample): for the request with only replicas = 2 the resource fragment is not
the replicas operation alone: it does contain an operation on the container's resources
path. -/
theorem buildResourcePatch_replicas_only_counterexample :
    reqReplicasOnly.CPU = "" ∧ reqReplicasOnly.Memory = "" ∧ reqReplicasOnly.Replicas > 0 ∧
    (buildResourcePatch reqReplicasOnly).Patch ≠
      "\n- op: replace\n  path: /spec/replicas\n  value: 2" ∧
    stringsContains (buildResourcePatch reqReplicasOnly).Patch
      "path: /spec/template/spec/containers/0/resources" = true := by
  decide

/-- C3 (amended): for every request with empty cpu, empty memory and replicas > 0 the
resource fragment consists of the resources-replace operation with nothing listed under
requests and limits, followed by the replace operation on /spec/replicas with the request's
replica count. -/
theorem buildResourcePatch_replicas_only (req : EnvironmentRequest)
    (hc : req.CPU = "") (hm : req.Memory = "") (hr : req.Replicas > 0) :
    (buildResourcePatch req).Patch =
      ("\n- op: replace\n  path: /spec/template/spec/containers/0/resources\n  value:" ++
        "\n    requests:\n    limits:") ++
      ("\n- op: replace\n  path: /spec/replicas\n  value: " ++ toString req.Replicas) := by
  unfold buildResourcePatch
  simp [hc, hm, hr, String.append_assoc]

/-- Witness of `buildResourcePatch_replicas_only` at the request with only replicas = 2. -/
theorem buildResourcePatch_replicas_only_witness :
    (buildResourcePatch reqReplicasOnly).Patch =
      ("\n- op: replace\n  path: /spec/template/spec/containers/0/resources\n  value:" ++
        "\n    requests:\n    limits:") ++
      ("\n- op: replace\n  path: /spec/replicas\n  value: " ++ toString reqReplicasOnly.Replicas) :=
  buildResourcePatch_replicas_only reqReplicasOnly rfl rfl (by decide)

/-- C4: the resource fragment targets kind Deployment, name "app"; its text is the rendering
of a resources-replace operation whose requests and limits both list a cpu entry with value
`req.CPU` exactly when cpu is non-empty and a memory entry with value `req.Memory` exactly
when memory is non-empty (and nothing else), followed by a replace operation on
/spec/replicas with value `req.Replicas` exactly when replicas > 0. -/
theorem buildResourcePatch_structure (req : EnvironmentRequest) :
    (buildResourcePatch req).Target = { Kind := "Deployment", Name := "app" } ∧
    (buildResourcePatch req).Patch = renderResourceFragment (resourceFragmentOf req) ∧
    (resourceFragmentOf req).limits = (resourceFragmentOf req).requests ∧
    (∀ v, ("cpu", v) ∈ (resourceFragmentOf req).requests ↔ req.CPU ≠ "" ∧ v = req.CPU) ∧
    (∀ v, ("memory", v) ∈ (resourceFragmentOf req).requests ↔
      req.Memory ≠ "" ∧ v = req.Memory) ∧
    (∀ k v, (k, v) ∈ (resourceFragmentOf req).requests → k = "cpu" ∨ k = "memory") ∧
    (∀ n, (resourceFragmentOf req).replicas = some n ↔ req.Replicas > 0 ∧ n = req.Replicas) ∧
    (buildResourcePatch reqSized).Patch =
      "\n- op: replace\n  path: /spec/template/spec/containers/0/resources\n  value:" ++
      "\n    requests:\n      cpu: \"250m\"\n      memory: \"512Mi\"" ++
      "\n    limits:\n      cpu: \"250m\"\n      memory: \"512Mi\"" ++
      "\n- op: replace\n  path: /spec/replicas\n  value: 3" := by
  refine ⟨rfl, buildResourcePatch_patch_eq req, rfl, ?_, ?_, ?_, ?_, rfl⟩
  · intro v
    by_cases hc : req.CPU = "" <;> by_cases hm : req.Memory = "" <;>
      simp [resourceFragmentOf, suppliedQuantities, hc, hm]
  · intro v
    by_cases hc : req.CPU = "" <;> by_cases hm : req.Memory = "" <;>
      simp [resourceFragmentOf, suppliedQuantities, hc, hm]
  · intro k v
    by_cases hc : req.CPU = "" <;> by_cases hm : req.Memory = "" <;>
      simp [resourceFragmentOf, suppliedQuantities, hc, hm] <;> tauto
  · intro n
    by_cases hr : req.Replicas > 0
    · simp only [resourceFragmentOf, hr, if_true, Option.some.injEq, true_and]
      exact eq_comm
    · simp [resourceFragmentOf, hr]

/-- Witness of `buildResourcePatch_structure` at cpu "250m", memory "512Mi", replicas 3: both
quantities appear under requests and limits and the replicas operation has value 3. -/
theorem buildResourcePatch_structure_witness :
    (resourceFragmentOf reqSized).requests = [("cpu", "250m"), ("memory", "512Mi")] ∧
    (resourceFragmentOf reqSized).limits = [("cpu", "250m"), ("memory", "512Mi")] ∧
    (resourceFragmentOf reqSized).replicas = some 3 ∧
    (buildResourcePatch reqSized).Patch = renderResourceFragment (resourceFragmentOf reqSized) :=
  ⟨by decide, by decide, by decide, (buildResourcePatch_structure reqSized).2.1⟩

/-- C5: the patch list of `buildKustomizeConfig` is, in order, the resource fragment (present
exactly when cpu or memory is non-empty or replicas > 0), one dependency fragment per entry
of dependencies in input order, each targeting kind Deployment with the entry as name, and
the environment-variable fragment (present exactly when envVars is non-empty). -/
theorem buildKustomizeConfig_patch_order (req : EnvironmentRequest) :
    (buildKustomizeConfig req).Patches =
      (if req.CPU ≠ "" ∨ req.Memory ≠ "" ∨ req.Replicas > 0
        then [buildResourcePatch req] else []) ++
      req.Dependencies.map buildDependencyPatch ++
      (if req.EnvVars ≠ [] then [buildEnvVarsPatch req.EnvVars] else []) ∧
    (∀ dep, (buildDependencyPatch dep).Target = { Kind := "Deployment", Name := dep }) ∧
    (buildKustomizeConfig reqTwoDeps).Patches.map (fun p => p.Target) =
      [{ Kind := "Deployment", Name := "postgresql" },
       { Kind := "Deployment", Name := "redis" }] :=
  ⟨buildKustomizeConfig_patches_eq req, fun _ => rfl, by decide⟩

/-- C10: the descriptor has metadata name `req.Name` and destination namespace
`"env-" ++ req.Name` (so `"env-demo"` for the name "demo"), and it is determined by the
request: two requests with the same name and environment type give equal descriptors. -/
theorem buildApplication_identity (req : EnvironmentRequest) :
    (buildApplication req).Metadata.Name = req.Name ∧
    (buildApplication req).Spec.Destination.Namespace = "env-" ++ req.Name ∧
    (req.Name = "demo" → (buildApplication req).Spec.Destination.Namespace = "env-demo") ∧
    (∀ other : EnvironmentRequest, other = req → buildApplication other = buildApplication req) ∧
    (∀ other : EnvironmentRequest, other.Name = req.Name → other.EnvType = req.EnvType →
      buildApplication other = buildApplication req) := by
  refine ⟨rfl, rfl, ?_, ?_, ?_⟩
  · intro h
    show "env-" ++ req.Name = "env-demo"
    rw [h]
    rfl
  · intro other h
    rw [h]
  · intro other hn ht
    simp only [buildApplication, hn, ht]

/-- Witness of `buildApplication_identity` at the request named "demo". -/
theorem buildApplication_identity_witness :
    (buildApplication reqSized).Spec.Destination.Namespace = "env-demo" ∧
    buildApplication reqReplicasOnly = buildApplication reqSized :=
  ⟨(buildApplication_identity reqSized).2.2.1 rfl,
    (buildApplication_identity reqSized).2.2.2.2 reqReplicasOnly rfl rfl⟩

/-! ## Claims about the validator -/

/-- C2: `ValidateEnvironmentRequest` returns no error exactly when `validateName` accepts the
name, `validateBranch` accepts the branch, cpu is empty or accepted by `validateCPU`, memory
is empty or accepted by `validateMemory`, 0 ≤ replicas ≤ 10, every dependency is one of
postgresql, redis, mongodb, and envType is empty or one of dev, staging, prod; in particular
a request with an empty name, an empty branch or replicas outside [0, 10] is rejected. -/
theorem ValidateEnvironmentRequest_accepts_iff (req : EnvironmentRequest) :
    (ValidateEnvironmentRequest req = .ok () ↔
      validateName req.Name = .ok () ∧ validateBranch req.Branch = .ok () ∧
      (req.CPU = "" ∨ validateCPU req.CPU = .ok ()) ∧
      (req.Memory = "" ∨ validateMemory req.Memory = .ok ()) ∧
      (0 ≤ req.Replicas ∧ req.Replicas ≤ 10) ∧
      (∀ d ∈ req.Dependencies, d = "postgresql" ∨ d = "redis" ∨ d = "mongodb") ∧
      (req.EnvType = "" ∨ req.EnvType = "dev" ∨ req.EnvType = "staging" ∨
        req.EnvType = "prod")) ∧
    (req.Name = "" ∨ req.Branch = "" ∨ req.Replicas < 0 ∨ 10 < req.Replicas →
      ∃ msg, ValidateEnvironmentRequest req = .error msg) := by
  refine ⟨ValidateEnvironmentRequest_ok_iff req, ?_⟩
  intro h
  have hno : ValidateEnvironmentRequest req ≠ .ok () := by
    intro hok
    obtain ⟨hn, hb, _, _, ⟨hr0, hr10⟩, _, _⟩ := (ValidateEnvironmentRequest_ok_iff req).mp hok
    rcases h with h | h | h | h
    · rw [h] at hn
      exact absurd hn (by decide)
    · rw [h] at hb
      exact absurd hb (by decide)
    · omega
    · omega
  cases hv : ValidateEnvironmentRequest req with
  | error msg => exact ⟨msg, rfl⟩
  | ok u => exact (hno hv).elim

/-- Witness of `ValidateEnvironmentRequest_accepts_iff`: a well-formed request is accepted and
the request with replicas = 11 is rejected. -/
theorem ValidateEnvironmentRequest_accepts_iff_witness :
    ValidateEnvironmentRequest reqValid = .ok () ∧
    ∃ msg, ValidateEnvironmentRequest { reqValid with Replicas := 11 } = .error msg :=
  ⟨(ValidateEnvironmentRequest_accepts_iff reqValid).1.mpr (by decide),
    (ValidateEnvironmentRequest_accepts_iff { reqValid with Replicas := 11 }).2
      (Or.inr (Or.inr (Or.inr (by decide))))⟩

/-- C6: `validateName` accepts a string exactly when it is non-empty, at most 63 characters
long, made only of lowercase ASCII letters, digits and hyphens, and starts and ends with a
letter or digit; "my-env-1" is accepted, "-bad", "BAD" and every 64-character name are
rejected. -/
theorem validateName_accepts_iff (s : String) :
    (validateName s = .ok () ↔
      s ≠ "" ∧ s.length ≤ 63 ∧ (∀ c ∈ s.toList, isNameChar c = true) ∧
        (∃ c, s.toList.head? = some c ∧ isLowerAlnum c = true) ∧
        (∃ c, s.toList.getLast? = some c ∧ isLowerAlnum c = true)) ∧
    validateName "my-env-1" = .ok () ∧
    validateName "-bad" ≠ .ok () ∧
    validateName "BAD" ≠ .ok () ∧
    (s.length = 64 → validateName s ≠ .ok ()) := by
  refine ⟨validateName_ok_iff_shape s, by decide, by decide, by decide, ?_⟩
  intro h64 hok
  have := ((validateName_ok_iff_shape s).mp hok).2.1
  omega

/-- Witness of `validateName_accepts_iff`: a name of 64 lowercase letters is rejected. -/
theorem validateName_accepts_iff_witness :
    validateName (String.mk (List.replicate 64 'a')) ≠ .ok () :=
  (validateName_accepts_iff (String.mk (List.replicate 64 'a'))).2.2.2.2
    (List.length_replicate 64 'a')

/-- C7 (counterexample): a branch of 128 two-byte characters is non-empty, has at most 255
characters and contains none of the forbidden characters, yet `validateBranch` rejects it,
because its length check counts bytes. -/
theorem validateBranch_character_count_counterexample :
    longAccentedBranch ≠ "" ∧ longAccentedBranch.length ≤ 255 ∧
    (∀ c ∈ forbiddenBranchChars, c ∉ longAccentedBranch.toList) ∧
    validateBranch longAccentedBranch =
      .error "branch name cannot be longer than 255 characters" := by
  have hne : longAccentedBranch ≠ "" := by
    rw [string_ne_empty_iff]
    show List.replicate 128 'é' ≠ []
    intro h
    have hl := congrArg List.length h
    rw [List.length_replicate] at hl
    exact absurd hl (by decide)
  have hlen : longAccentedBranch.length ≤ 255 := by
    show (List.replicate 128 'é').length ≤ 255
    rw [List.length_replicate]
    decide
  have hbytes : longAccentedBranch.utf8ByteSize = 256 := by
    have hrep : ∀ n : Nat, String.utf8Len (List.replicate n 'é') = n * 2 := by
      intro n
      induction n with
      | zero => rfl
      | succ n ih =>
        rw [List.replicate_succ, String.utf8Len_cons, ih]
        have : ('é' : Char).utf8Size = 2 := by decide
        omega
    rw [utf8ByteSize_eq]
    exact hrep 128
  refine ⟨hne, hlen, ?_, ?_⟩
  · intro c hc hmem
    have hce : c = 'é' := List.eq_of_mem_replicate hmem
    subst hce
    revert hc
    decide
  · unfold validateBranch
    simp [hne, hbytes]

/-- C7 (amended): `validateBranch` accepts a string exactly when it is non-empty, its UTF-8
encoding has at most 255 bytes, and it contains none of: space, tab, newline, carriage
return, `~ ^ : ? * [` and the backslash. -/
theorem validateBranch_accepts_iff (s : String) :
    validateBranch s = .ok () ↔
      s ≠ "" ∧ s.utf8ByteSize ≤ 255 ∧ ∀ c ∈ forbiddenBranchChars, c ∉ s.toList :=
  validateBranch_ok_iff s

/-- C8: `validateCPU` accepts a string exactly when it is a decimal quantity (digits,
optionally `.` and digits) optionally followed by a single `m`, and nothing else; "100m",
"0.5" and "2" are accepted, "100mm" and "abc" are rejected. -/
theorem validateCPU_accepts_iff (s : String) :
    (validateCPU s = .ok () ↔
      ∃ q, IsDecimalQuantity q ∧ (s.toList = q ∨ s.toList = q ++ ['m'])) ∧
    validateCPU "100m" = .ok () ∧ validateCPU "0.5" = .ok () ∧ validateCPU "2" = .ok () ∧
    validateCPU "100mm" ≠ .ok () ∧ validateCPU "abc" ≠ .ok () := by
  refine ⟨?_, by decide, by decide, by decide, by decide, by decide⟩
  rw [validateCPU_ok_iff_lang, lang_cpuRegex]

/-- C9: `validateMemory` accepts a string exactly when it is a decimal quantity immediately
followed by exactly one of the unit suffixes Ki, Mi, Gi, Ti, K, M, G, T (case-sensitive);
"256Mi" and "1G" are accepted, "256mi" and every quantity without a unit are rejected. -/
theorem validateMemory_accepts_iff (s : String) :
    (validateMemory s = .ok () ↔
      ∃ q u, IsDecimalQuantity q ∧ u ∈ memoryUnits ∧ s.toList = q ++ u.toList) ∧
    validateMemory "256Mi" = .ok () ∧ validateMemory "1G" = .ok () ∧
    validateMemory "256mi" ≠ .ok () ∧
    (IsDecimalQuantity s.toList → validateMemory s ≠ .ok ()) := by
  refine ⟨?_, by decide, by decide, by decide, ?_⟩
  · rw [validateMemory_ok_iff_lang, lang_memRegex]
  · intro hdec hok
    obtain ⟨q, u, _, hu, hs⟩ := (lang_memRegex _).mp ((validateMemory_ok_iff_lang s).mp hok)
    obtain ⟨c, hc, hcd⟩ := decimal_last_digit _ hdec
    have hlast : ∀ v ∈ memoryUnits, ∀ d, (q ++ v.toList).getLast? = some d →
        d.isDigit = false := by
      intro v hv d hd
      simp only [memoryUnits, List.mem_cons, List.mem_singleton, List.not_mem_nil,
        or_false] at hv
      rcases hv with h | h | h | h | h | h | h | h <;> subst h <;>
        rw [List.getLast?_append] at hd <;>
        simp at hd <;> subst hd <;> decide
    rw [hs] at hc
    rw [hlast u hu c hc] at hcd
    exact Bool.noConfusion hcd

/-- Witness of `validateMemory_accepts_iff`: the bare quantity "256" is rejected. -/
theorem validateMemory_accepts_iff_witness : validateMemory "256" ≠ .ok () :=
  (validateMemory_accepts_iff "256").2.2.2.2
    ⟨['2', '5', '6'], by decide, by decide, Or.inl rfl⟩

/-! ## Auxiliary facts: listing, env-var fragment, first failing rule -/

theorem foldl_cond_append {α β : Type} (p : α → Prop) [DecidablePred p] (f : α → β)
    (l : List α) (init : List β) :
    l.foldl (fun acc a => if p a then acc ++ [f a] else acc) init =
      init ++ (l.filter fun a => decide (p a)).map f := by
  induction l generalizing init with
  | nil => simp
  | cons a l ih =>
    by_cases h : p a
    · simp [List.foldl_cons, ih, h]
    · simp [List.foldl_cons, ih, h]

theorem foldl_append_string (init : String) (l : List String) :
    l.foldl (fun r s => r ++ s) init = init ++ String.join l := by
  induction l generalizing init with
  | nil => simp [String.join]
  | cons a l ih =>
    have hj : String.join (a :: l) = a ++ String.join l := by
      show List.foldl (fun r s => r ++ s) "" (a :: l) = a ++ String.join l
      rw [List.foldl_cons, ih, String.empty_append]
    rw [List.foldl_cons, ih, hj, String.append_assoc]

theorem foldl_render_string {α : Type} (g : α → String) (init : String) (l : List α) :
    l.foldl (fun acc a => acc ++ g a) init = init ++ String.join (l.map g) := by
  rw [← foldl_append_string, List.foldl_map]

theorem buildEnvVarsPatch_patch_eq (envVars : List (String × String)) :
    (buildEnvVarsPatch envVars).Patch = renderEnvAddOp envVars := by
  unfold buildEnvVarsPatch renderEnvAddOp
  simp only
  rw [← foldl_render_string]
  rfl

theorem wrapErr_error (pre msg : String) :
    wrapErr pre (.error msg) = .error (pre ++ msg) := rfl

theorem wrapErr_ok (pre : String) : wrapErr pre (.ok ()) = .ok () := rfl

theorem bind_error (e : String) (f : Unit → Except String Unit) :
    ((Except.error e : Except String Unit) >>= f) = .error e := rfl

theorem bind_ok (f : Unit → Except String Unit) :
    ((Except.ok () : Except String Unit) >>= f) = f () := rfl

theorem throw_eq_error (m : String) : (throw m : Except String Unit) = .error m := rfl

theorem pure_eq_ok : (pure PUnit.unit : Except String Unit) = .ok () := rfl

/-- The request check as an explicit chain of the seven rule outcomes. -/
theorem ValidateEnvironmentRequest_eq_chain (req : EnvironmentRequest) :
    ValidateEnvironmentRequest req =
      (wrapErr "invalid name: " (validateName req.Name) >>= fun _ =>
        wrapErr "invalid branch: " (validateBranch req.Branch) >>= fun _ =>
        (if req.CPU ≠ "" then wrapErr "invalid CPU: " (validateCPU req.CPU)
          else .ok ()) >>= fun _ =>
        (if req.Memory ≠ "" then wrapErr "invalid memory: " (validateMemory req.Memory)
          else .ok ()) >>= fun _ =>
        (if req.Replicas < 0 ∨ req.Replicas > 10
          then (.error "replicas must be between 0 and 10" : Except String Unit)
          else .ok ()) >>= fun _ =>
        wrapErr "invalid dependencies: " (validateDependencies req.Dependencies) >>= fun _ =>
        wrapErr "invalid environment type: " (validateEnvType req.EnvType)) := by
  have hlast : ∀ e : Except String Unit, (e >>= fun _ => Except.ok ()) = e := by
    intro e
    cases e <;> rfl
  unfold ValidateEnvironmentRequest
  by_cases hc : req.CPU = "" <;> by_cases hm : req.Memory = "" <;>
    by_cases hr : (req.Replicas < 0 ∨ req.Replicas > 10) <;>
    simp only [hc, hm, hr, ne_eq, not_true_eq_false, not_false_eq_true, if_true, if_false,
      throw_eq_error, pure_eq_ok, bind_ok, bind_error, hlast]

theorem validateDependencies_first_bad (pre post : List String) (d : String)
    (hpre : ∀ x ∈ pre, x = "postgresql" ∨ x = "redis" ∨ x = "mongodb")
    (hd : ¬ (d = "postgresql" ∨ d = "redis" ∨ d = "mongodb")) :
    validateDependencies (pre ++ d :: post) =
      .error ("unsupported dependency: " ++ d ++ ". Supported: postgresql, redis, mongodb") := by
  induction pre with
  | nil =>
    have h : mapIndexBool validDeps d = false := by
      cases hm : mapIndexBool validDeps d with
      | false => rfl
      | true => exact (hd ((mapIndexBool_validDeps d).mp hm)).elim
    simp [validateDependencies, h]
  | cons x pre ih =>
    have hx : mapIndexBool validDeps x = true :=
      (mapIndexBool_validDeps x).mpr (hpre x (List.mem_cons_self _ _))
    simp only [List.cons_append, validateDependencies, hx, Bool.not_true, Bool.false_eq_true,
      if_false]
    exact ih fun y hy => hpre y (List.mem_cons_of_mem _ hy)

theorem append_ne_empty (s t : String) (h : s ≠ "") : s ++ t ≠ "" := by
  intro he
  have hl := congrArg String.length he
  rw [String.length_append] at hl
  have hs : s.length ≠ 0 := by
    intro h0
    apply h
    cases s with
    | mk l =>
      have : l = [] := List.length_eq_zero.mp h0
      rw [this]
  have h0 : ("" : String).length = 0 := rfl
  omega

theorem buildResourcePatch_ne_empty (req : EnvironmentRequest) :
    (buildResourcePatch req).Patch ≠ "" := by
  rw [buildResourcePatch_patch_eq]
  unfold renderResourceFragment
  repeat rw [String.append_assoc]
  exact append_ne_empty _ _ (by decide)

theorem buildEnvVarsPatch_ne_empty (envVars : List (String × String)) :
    (buildEnvVarsPatch envVars).Patch ≠ "" := by
  rw [buildEnvVarsPatch_patch_eq]
  exact append_ne_empty _ _ (by decide)

theorem buildDependencyPatch_empty_iff (dep : String) :
    (buildDependencyPatch dep).Patch = "" ↔
      ¬ (dep = "postgresql" ∨ dep = "redis" ∨ dep = "mongodb") := by
  unfold buildDependencyPatch
  by_cases h1 : dep = "postgresql"
  · simp only [h1, if_true, true_or, not_true_eq_false, iff_false]
    decide
  · by_cases h2 : dep = "redis"
    · simp only [h2, if_true, true_or, or_true, not_true_eq_false, iff_false]
      decide
    · by_cases h3 : dep = "mongodb"
      · simp only [h3, if_true, or_true, not_true_eq_false, iff_false]
        decide
      · simp [h1, h2, h3]

/-! ## Claims about the listing, the labels and the env-var fragment -/

/-- C11: for every decoded list of remote application objects, the items returned by
`ListApplications` are exactly the objects whose labels map "managed-by" to "meeseeks", one
item per such object in the remote order, so the item count is the number of marked
objects; each item has id = name = the object's metadata name, status = its health status
string, and url = "https://<name>.dev.example.com". -/
theorem ListApplications_items (rawApps : List RawApplication) :
    (ListApplications rawApps).Items =
      (rawApps.filter fun app =>
          decide (mapIndexString app.Metadata.Labels "managed-by" = "meeseeks")).map
        (fun app =>
          { ID := app.Metadata.Name
            Name := app.Metadata.Name
            Status := app.Status.Health.Status
            URL := "https://" ++ app.Metadata.Name ++ ".dev.example.com" }) ∧
    (ListApplications rawApps).Items.length =
      rawApps.countP (fun app =>
        decide (mapIndexString app.Metadata.Labels "managed-by" = "meeseeks")) ∧
    (ListApplications sampleRawApps).Items =
      [{ ID := "alpha", Name := "alpha", Status := "Healthy",
         URL := "https://alpha.dev.example.com" },
       { ID := "beta", Name := "beta", Status := "Progressing",
         URL := "https://beta.dev.example.com" }] := by
  have hitems : (ListApplications rawApps).Items =
      (rawApps.filter fun app =>
          decide (mapIndexString app.Metadata.Labels "managed-by" = "meeseeks")).map
        (fun app =>
          { ID := app.Metadata.Name
            Name := app.Metadata.Name
            Status := app.Status.Health.Status
            URL := "https://" ++ app.Metadata.Name ++ ".dev.example.com" }) := by
    unfold ListApplications
    simp only
    rw [foldl_cond_append
      (fun app : RawApplication => mapIndexString app.Metadata.Labels "managed-by" = "meeseeks")
      (fun app : RawApplication =>
        ({ ID := app.Metadata.Name
           Name := app.Metadata.Name
           Status := app.Status.Health.Status
           URL := "https://" ++ app.Metadata.Name ++ ".dev.example.com" } : EnvironmentItem))
      rawApps [], List.nil_append]
  refine ⟨hitems, ?_, by decide⟩
  rw [hitems, List.length_map, List.countP_eq_length_filter]

/-- C12: the label set of the descriptor is exactly managed-by = "meeseeks" and
env-type = `req.EnvType`; hence the descriptor passes the ownership test of
`ListApplications`: a remote object carrying the descriptor's name and labels is kept in the
listing, whatever its health status. -/
theorem buildApplication_labels (req : EnvironmentRequest) :
    (buildApplication req).Metadata.Labels =
      [("managed-by", "meeseeks"), ("env-type", req.EnvType)] ∧
    (∀ k v, (k, v) ∈ (buildApplication req).Metadata.Labels ↔
      (k = "managed-by" ∧ v = "meeseeks") ∨ (k = "env-type" ∧ v = req.EnvType)) ∧
    mapIndexString (buildApplication req).Metadata.Labels "managed-by" = "meeseeks" ∧
    (∀ health : String,
      (ListApplications
        [{ Metadata :=
             { Name := (buildApplication req).Metadata.Name
               Labels := (buildApplication req).Metadata.Labels }
           Status := { Health := { Status := health } } }]).Items =
        [{ ID := req.Name, Name := req.Name, Status := health,
           URL := "https://" ++ req.Name ++ ".dev.example.com" }]) := by
  refine ⟨rfl, ?_, rfl, ?_⟩
  · intro k v
    simp [buildApplication]
  · intro health
    rfl

/-- C13 (code bug): keys and values are copied into the patch text unescaped. The request
`reqInjectedEnv` passes validation and its mapping has the single key A, whose value holds a
double quote and line breaks; the fragment built for it is, character for character, the
fragment built for the two-key mapping A = 1, B = 2. Its value list therefore shows an entry
named B that is no key of the mapping, and pairs A with "1" rather than with its own
value: not one entry per key. -/
theorem buildEnvVarsPatch_unescaped_value :
    ValidateEnvironmentRequest reqInjectedEnv = .ok () ∧
    reqInjectedEnv.EnvVars.map Prod.fst = ["A"] ∧
    (buildEnvVarsPatch reqInjectedEnv.EnvVars).Target =
      { Kind := "Deployment", Name := "app" } ∧
    (buildEnvVarsPatch reqInjectedEnv.EnvVars).Patch =
      "\n- op: add\n  path: /spec/template/spec/containers/0/env\n  value:" ++
      "\n  - name: A\n    value: \"1\"" ++
      "\n  - name: B\n    value: \"2\"" ∧
    (buildEnvVarsPatch reqInjectedEnv.EnvVars).Patch =
      (buildEnvVarsPatch [("A", "1"), ("B", "2")]).Patch ∧
    (buildKustomizeConfig reqInjectedEnv).Patches =
      [buildEnvVarsPatch [("A", "1"), ("B", "2")]] := by
  refine ⟨by decide, rfl, rfl, rfl, rfl, ?_⟩
  decide

/-! ## Claims about the order of the checks and the dependency fragments -/

/-- C14: `ValidateEnvironmentRequest` checks name, branch, cpu, memory, replicas,
dependencies and envType in this order and returns the error of the first rule that fails,
whatever the later fields contain: the field validator's message behind "invalid name: ",
"invalid branch: ", "invalid CPU: ", "invalid memory: ", "invalid dependencies: " or
"invalid environment type: ", and for replicas the message "replicas must be between 0 and
10". A request with an empty branch and replicas = 11 fails with the branch error. A failure
in dependencies names the first unrecognized entry and lists the supported names
"postgresql, redis, mongodb". -/
theorem ValidateEnvironmentRequest_first_error (req : EnvironmentRequest) :
    (∀ e, validateName req.Name = .error e →
      ValidateEnvironmentRequest req = .error ("invalid name: " ++ e)) ∧
    (validateName req.Name = .ok () →
      (∀ e, validateBranch req.Branch = .error e →
        ValidateEnvironmentRequest req = .error ("invalid branch: " ++ e)) ∧
      (validateBranch req.Branch = .ok () →
        (∀ e, req.CPU ≠ "" → validateCPU req.CPU = .error e →
          ValidateEnvironmentRequest req = .error ("invalid CPU: " ++ e)) ∧
        (req.CPU = "" ∨ validateCPU req.CPU = .ok () →
          (∀ e, req.Memory ≠ "" → validateMemory req.Memory = .error e →
            ValidateEnvironmentRequest req = .error ("invalid memory: " ++ e)) ∧
          (req.Memory = "" ∨ validateMemory req.Memory = .ok () →
            (req.Replicas < 0 ∨ req.Replicas > 10 →
              ValidateEnvironmentRequest req = .error "replicas must be between 0 and 10") ∧
            (0 ≤ req.Replicas ∧ req.Replicas ≤ 10 →
              (∀ e, validateDependencies req.Dependencies = .error e →
                ValidateEnvironmentRequest req = .error ("invalid dependencies: " ++ e)) ∧
              (validateDependencies req.Dependencies = .ok () →
                ∀ e, validateEnvType req.EnvType = .error e →
                  ValidateEnvironmentRequest req =
                    .error ("invalid environment type: " ++ e))))))) ∧
    (∀ (pre post : List String) (d : String), req.Dependencies = pre ++ d :: post →
      (∀ x ∈ pre, x = "postgresql" ∨ x = "redis" ∨ x = "mongodb") →
      ¬ (d = "postgresql" ∨ d = "redis" ∨ d = "mongodb") →
      validateDependencies req.Dependencies =
        .error ("unsupported dependency: " ++ d ++
          ". Supported: postgresql, redis, mongodb")) ∧
    ValidateEnvironmentRequest reqEmptyBranch =
      .error "invalid branch: branch cannot be empty" := by
  refine ⟨?_, ?_, ?_, by decide⟩
  · intro e he
    rw [ValidateEnvironmentRequest_eq_chain, he, wrapErr_error, bind_error]
  · intro hn
    rw [ValidateEnvironmentRequest_eq_chain, hn, wrapErr_ok, bind_ok]
    refine ⟨?_, ?_⟩
    · intro e he
      rw [he, wrapErr_error, bind_error]
    · intro hb
      rw [hb, wrapErr_ok, bind_ok]
      refine ⟨?_, ?_⟩
      · intro e hc he
        rw [if_pos hc, he, wrapErr_error, bind_error]
      · intro hcpu
        have hcpu2 : (if req.CPU ≠ "" then wrapErr "invalid CPU: " (validateCPU req.CPU)
            else .ok ()) = .ok () := by
          by_cases hc : req.CPU = ""
          · rw [if_neg (not_not.mpr hc)]
          · rcases hcpu with h | h
            · exact (hc h).elim
            · rw [if_pos hc, h, wrapErr_ok]
        rw [hcpu2, bind_ok]
        refine ⟨?_, ?_⟩
        · intro e hm he
          rw [if_pos hm, he, wrapErr_error, bind_error]
        · intro hmem
          have hmem2 : (if req.Memory ≠ "" then
              wrapErr "invalid memory: " (validateMemory req.Memory)
              else .ok ()) = .ok () := by
            by_cases hm : req.Memory = ""
            · rw [if_neg (not_not.mpr hm)]
            · rcases hmem with h | h
              · exact (hm h).elim
              · rw [if_pos hm, h, wrapErr_ok]
          rw [hmem2, bind_ok]
          refine ⟨?_, ?_⟩
          · intro hr
            rw [if_pos hr, bind_error]
          · intro hr
            have hr2 : ¬ (req.Replicas < 0 ∨ req.Replicas > 10) := by omega
            rw [if_neg hr2, bind_ok]
            refine ⟨?_, ?_⟩
            · intro e he
              rw [he, wrapErr_error, bind_error]
            · intro hd e he
              rw [hd, he, wrapErr_ok, bind_ok, wrapErr_error]
  · intro pre post d hdeps hpre hd
    rw [hdeps]
    exact validateDependencies_first_bad pre post d hpre hd

/-- Witness of `ValidateEnvironmentRequest_first_error`: the request whose dependencies are
redis, mysql, oracle and whose envType is unrecognized fails at "mysql". -/
theorem ValidateEnvironmentRequest_first_error_witness :
    ValidateEnvironmentRequest reqBadDependency =
      .error ("invalid dependencies: " ++
        ("unsupported dependency: " ++ "mysql" ++ ". Supported: postgresql, redis, mongodb")) :=
  (((((ValidateEnvironmentRequest_first_error reqBadDependency).2.1 (by decide)).2
    (by decide)).2 (Or.inl rfl)).2 (Or.inl rfl)).2 (by decide) |>.1 _
    ((ValidateEnvironmentRequest_first_error reqBadDependency).2.2.1 ["redis"] ["oracle"]
      "mysql" rfl (by decide) (by decide))

/-- C15: `buildDependencyPatch` returns a fragment for every name (it has no failure path);
the body is empty exactly for names outside postgresql, redis, mongodb, and for each of these
three it is the fixed deployment definition of that name, which opens with that name as
metadata name. Hence for every request accepted by `ValidateEnvironmentRequest` no
dependency fragment of `buildKustomizeConfig`, indeed no fragment at all, has an empty
body. -/
theorem buildDependencyPatch_body (dep : String) :
    (buildDependencyPatch dep).Target = { Kind := "Deployment", Name := dep } ∧
    ((buildDependencyPatch dep).Patch = "" ↔
      ¬ (dep = "postgresql" ∨ dep = "redis" ∨ dep = "mongodb")) ∧
    (buildDependencyPatch "postgresql").Patch = postgresqlPatch ∧
    (buildDependencyPatch "redis").Patch = redisPatch ∧
    (buildDependencyPatch "mongodb").Patch = mongodbPatch ∧
    (dep = "postgresql" ∨ dep = "redis" ∨ dep = "mongodb" →
      (deploymentHeader dep).toList.isPrefixOf (buildDependencyPatch dep).Patch.toList = true) ∧
    (∀ req : EnvironmentRequest, ValidateEnvironmentRequest req = .ok () →
      (∀ p ∈ req.Dependencies.map buildDependencyPatch, p.Patch ≠ "") ∧
      (∀ p ∈ (buildKustomizeConfig req).Patches, p.Patch ≠ "")) := by
  refine ⟨rfl, buildDependencyPatch_empty_iff dep, rfl, rfl, rfl, ?_, ?_⟩
  · rintro (h | h | h) <;> subst h <;> rfl
  · intro req hok
    have hdeps := ((ValidateEnvironmentRequest_ok_iff req).mp hok).2.2.2.2.2.1
    have hseg : ∀ p ∈ req.Dependencies.map buildDependencyPatch, p.Patch ≠ "" := by
      intro p hp
      obtain ⟨d, hd, hpd⟩ := List.mem_map.mp hp
      subst hpd
      intro hempty
      exact (buildDependencyPatch_empty_iff d).mp hempty (hdeps d hd)
    refine ⟨hseg, ?_⟩
    intro p hp
    rw [buildKustomizeConfig_patches_eq] at hp
    rcases List.mem_append.mp hp with h | h
    · rcases List.mem_append.mp h with h | h
      · by_cases hc : (req.CPU ≠ "" ∨ req.Memory ≠ "" ∨ req.Replicas > 0)
        · rw [if_pos hc, List.mem_singleton] at h
          subst h
          exact buildResourcePatch_ne_empty req
        · rw [if_neg hc] at h
          exact absurd h (List.not_mem_nil _)
      · exact hseg p h
    · by_cases he : req.EnvVars ≠ []
      · rw [if_pos he, List.mem_singleton] at h
        subst h
        exact buildEnvVarsPatch_ne_empty req.EnvVars
      · rw [if_neg he] at h
        exact absurd h (List.not_mem_nil _)

/-- Witness of `buildDependencyPatch_body`: the accepted sample request, whose dependencies
are postgresql and redis, compiles to fragments with non-empty bodies only. -/
theorem buildDependencyPatch_body_witness :
    ValidateEnvironmentRequest reqValid = .ok () ∧
    (∀ p ∈ (buildKustomizeConfig reqValid).Patches, p.Patch ≠ "") ∧
    (deploymentHeader "redis").toList.isPrefixOf (buildDependencyPatch "redis").Patch.toList =
      true :=
  ⟨by decide, ((buildDependencyPatch_body "redis").2.2.2.2.2.2 reqValid (by decide)).2,
    (buildDependencyPatch_body "redis").2.2.2.2.2.1 (Or.inr (Or.inl rfl))⟩

end Meeseeks
